import Mathlib

/-!
Verification of the AgentCode-Local-MCP sandbox core (Go) against its
natural-language specification.

The Go code is shallowly embedded: Go strings are byte lists (`GoStr`),
file contents are passed explicitly, the filesystem used by symlink
resolution is a finite association list, and process execution is a pure
post-processing function over an abstract run outcome.  All definitions
are translated from the repository sources (the OS workspace
implementation, `shield.go`, the eyes module and the hands module);
definitions that instead transcribe the specification's words for
comparison say so in their doc comment.
-/

/-- Go strings are byte sequences; we model them as lists of byte values.
ASCII literals are written via `gs`. -/
abbrev GoStr := List Nat

/-- Byte list of an ASCII Lean string literal (for ASCII each char's code
point is its single UTF-8 byte). -/
def gs (s : String) : GoStr := s.data.map Char.toNat

/-- `unicode.IsSpace` restricted to ASCII: space, \t, \n, \v, \f, \r
(`strings.TrimSpace` and `strings.Fields` treat exactly these bytes as
space in the ASCII range). -/
def isSpaceByte (b : Nat) : Bool := b == 32 || (9 ≤ b && b ≤ 13)

/-- `strings.TrimSpace` (ASCII range). -/
def goTrimSpace (s : GoStr) : GoStr :=
  ((s.dropWhile isSpaceByte).reverse.dropWhile isSpaceByte).reverse

/-- `strings.Fields`: the maximal runs of non-space bytes. -/
def goFields (s : GoStr) : List GoStr :=
  (s.splitOnP isSpaceByte).filter (· ≠ [])

/-- `strings.Join(elems, sep)`. -/
def goJoinSep (elems : List GoStr) (sep : GoStr) : GoStr :=
  match elems with
  | [] => []
  | [x] => x
  | x :: rest => x ++ sep ++ goJoinSep rest sep

/-- `strings.TrimSuffix(s, suf)`. -/
def goTrimSuffix (s suf : GoStr) : GoStr :=
  if suf.isSuffixOf s then s.take (s.length - suf.length) else s

/-- `strings.TrimPrefix(s, pre)` (drop `pre` when `s` starts with it). -/
def goTrimLead (s pre : GoStr) : GoStr :=
  if pre.isPrefixOf s then s.drop pre.length else s

/-- One step of `strings.Split`: find the first occurrence of `sep` and
split there.  Returns `none` when `sep` does not occur. -/
def goSplitStep (sep : GoStr) : GoStr → Option (GoStr × GoStr)
  | [] => none
  | b :: rest =>
    if sep.isPrefixOf (b :: rest) then some ([], (b :: rest).drop sep.length)
    else
      match goSplitStep sep rest with
      | none => none
      | some (pre, post) => some (b :: pre, post)

/-- `strings.Contains(s, sub)` for nonempty `sub`. -/
def goContains (s sub : GoStr) : Bool :=
  (goSplitStep sub s).isSome

/-- Fuel-driven worker for `goSplit`; every split consumes at least one
byte of the remainder for nonempty separators, so `s.length + 1` fuel is
always enough. -/
def goSplitAux (sep : GoStr) : Nat → GoStr → List GoStr
  | 0, s => [s]
  | fuel + 1, s =>
    match goSplitStep sep s with
    | none => [s]
    | some (pre, post) => pre :: goSplitAux sep fuel post

/-- `strings.Split(s, sep)` for nonempty `sep` (every caller in the
embedded code passes a nonempty separator, so Go's empty-separator
behaviour — splitting after each rune — is not modelled). -/
def goSplit (sep s : GoStr) : List GoStr :=
  if sep = [] then [s] else goSplitAux sep (s.length + 1) s

/-- Fuel-driven worker for `goCount`. -/
def goCountAux (sub : GoStr) : Nat → GoStr → Nat
  | 0, _ => 0
  | fuel + 1, s =>
    match goSplitStep sub s with
    | none => 0
    | some (_, post) => 1 + goCountAux sub fuel post

/-- `strings.Count(s, sub)` for nonempty `sub`: non-overlapping
occurrences, scanning left to right.  (`SearchAndReplace` rejects an
empty search string before calling this, so Go's empty-substring case —
rune count plus one — is not modelled.) -/
def goCount (s sub : GoStr) : Nat :=
  goCountAux sub (s.length + 1) s

/-- Fuel-driven worker for `goReplaceAll`. -/
def goReplaceAux (old new : GoStr) : Nat → GoStr → GoStr
  | 0, s => s
  | fuel + 1, s =>
    match goSplitStep old s with
    | none => s
    | some (pre, post) => pre ++ new ++ goReplaceAux old new fuel post

/-- `strings.ReplaceAll(s, old, new)` for nonempty `old` (callers reject
an empty search string first). -/
def goReplaceAll (s old new : GoStr) : GoStr :=
  goReplaceAux old new (s.length + 1) s

/-- ASCII `strings.ToLower`. -/
def goToLower (s : GoStr) : GoStr :=
  s.map (fun b => if 65 ≤ b ∧ b ≤ 90 then b + 32 else b)

/-- Lexicographic byte comparison, the order Go's `<` uses on strings. -/
def strLt : GoStr → GoStr → Bool
  | [], [] => false
  | [], _ :: _ => true
  | _ :: _, [] => false
  | a :: as, b :: bs => if a < b then true else if b < a then false else strLt as bs

/-! ### Path handling (`path/filepath` on Unix) and the sandbox PathGuard -/

/-- Error taxonomy of the workspace operations (the Go code returns
`fmt.Errorf` values; we model each failure site as a constructor). -/
inductive WErr where
  | emptyPath
  | symlinkResolveFailed
  | relFailed
  | pathEscape
  | notInAllowed
  | blockedExtension
  | invalidRange (startLine endLine : Int)
  | rangeTooLarge (lineCount : Int)
  | occurrenceMismatch (expected actual : Int)
  | emptySearch
  | negativeExpected
  | commandNotAllowed
  | timeout
  | exitNonZero (code : Int)
  | executionFailed
  | diffParseFailed
  deriving DecidableEq, Repr

/-- Decidable equality for `Except` results (not provided by core). -/
instance {e a : Type} [DecidableEq e] [DecidableEq a] : DecidableEq (Except e a) :=
  fun x y =>
    match x, y with
    | .ok u, .ok v =>
      if h : u = v then .isTrue (by rw [h]) else .isFalse (by simp [h])
    | .error u, .error v =>
      if h : u = v then .isTrue (by rw [h]) else .isFalse (by simp [h])
    | .ok _, .error _ => .isFalse (by simp)
    | .error _, .ok _ => .isFalse (by simp)

/-- `filepath.IsAbs` on Unix: the path starts with `/` (byte 47). -/
def goIsAbs (p : GoStr) : Bool :=
  match p with
  | 47 :: _ => true
  | _ => false

/-- The `/`-separated components of a path, empty chunks dropped (this is
what `filepath.Clean` acts on). -/
def pathComps (p : GoStr) : List GoStr :=
  (goSplit [47] p).filter (· ≠ [])

/-- The component processing performed by `filepath.Clean`: drop `.`,
resolve `..` against the processed prefix (`..` at the root of an
absolute path vanishes; leading `..` of a relative path is kept).
`acc` holds the processed components in reverse. -/
def cleanComps (abs : Bool) (acc : List GoStr) : List GoStr → List GoStr
  | [] => acc.reverse
  | c :: rest =>
    if c = gs "." then cleanComps abs acc rest
    else if c = gs ".." then
      match acc with
      | [] => if abs then cleanComps abs [] rest else cleanComps abs [gs ".."] rest
      | a :: acc' =>
        if a = gs ".." then cleanComps abs (c :: acc) rest
        else cleanComps abs acc' rest
    else cleanComps abs (c :: acc) rest

/-- Reassemble components into a path string. -/
def unComps (abs : Bool) (comps : List GoStr) : GoStr :=
  if abs then 47 :: goJoinSep comps [47]
  else if comps = [] then gs "." else goJoinSep comps [47]

/-- `filepath.Clean` (Unix separator). -/
def goClean (p : GoStr) : GoStr :=
  if p = [] then gs "."
  else unComps (goIsAbs p) (cleanComps (goIsAbs p) [] (pathComps p))

/-- `filepath.Join(a, b)` for two elements: join with `/` then `Clean`,
skipping empty elements. -/
def goJoinPath (a b : GoStr) : GoStr :=
  if a = [] then goClean b
  else if b = [] then goClean a
  else goClean (a ++ [47] ++ b)

/-- Drop the longest common component prefix of two component lists. -/
def dropCommon : List GoStr → List GoStr → (List GoStr × List GoStr)
  | a :: as, b :: bs => if a = b then dropCommon as bs else (a :: as, b :: bs)
  | as, bs => (as, bs)

/-- `filepath.Rel(base, target)`.  Both are cleaned; mixing absolute and
relative paths is an error (`none`).  For the abs/abs uses in the
workspace the result is the target expressed relative to the base, with
one `..` per unshared base component. -/
def goRel (base targ : GoStr) : Option GoStr :=
  let b := goClean base
  let t := goClean targ
  if goIsAbs b ≠ goIsAbs t then none
  else
    let (restB, restT) := dropCommon (pathComps b) (pathComps t)
    if restB.any (· = gs "..") then none
    else
      let comps := List.replicate restB.length (gs "..") ++ restT
      if comps = [] then some (gs ".") else some (goJoinSep comps [47])

/-- Count of path separator bytes (`/`) in a path, as used by the tree
scanner's depth computation. -/
def countSep (p : GoStr) : Nat := p.count 47

/-- Filesystem entries for symlink resolution. -/
inductive FSEntry where
  | dir
  | file
  | symlink (target : GoStr)
  deriving DecidableEq, Repr

/-- A filesystem snapshot: clean absolute path → entry. -/
abbrev FS := List (GoStr × FSEntry)

/-- Look a clean absolute path up in the snapshot. -/
def lookupFS (fs : FS) (p : GoStr) : Option FSEntry :=
  (fs.find? (fun kv => kv.1 = p)).map (·.2)

/-- Append one component to a resolved absolute directory path. -/
def joinComp (cur c : GoStr) : GoStr :=
  if cur = gs "/" then 47 :: c else cur ++ [47] ++ c

/-- Result of `filepath.EvalSymlinks`. -/
inductive ResolveRes where
  | resolved (p : GoStr)
  | notExist
  | errOther
  deriving DecidableEq, Repr

/-- Component-wise walk of `filepath.EvalSymlinks`: each prefix is looked
up; a missing entry is ENOENT (`notExist`), a file in a non-final
position is ENOTDIR (`errOther`), a symlink restarts the walk on the
substituted target (fuel bounds the number of steps, standing in for the
kernel's link-count limit: exhaustion is ELOOP, `errOther`). -/
def resolveSteps (fs : FS) : Nat → GoStr → List GoStr → ResolveRes
  | 0, _, _ => .errOther
  | _ + 1, cur, [] => .resolved cur
  | fuel + 1, cur, c :: rest =>
    let cand := joinComp cur c
    match lookupFS fs cand with
    | none => .notExist
    | some .file => if rest = [] then .resolved cand else .errOther
    | some .dir => resolveSteps fs fuel cand rest
    | some (.symlink t) =>
      let newBase := if goIsAbs t then goClean t else goJoinPath cur t
      resolveSteps fs fuel (gs "/") (pathComps newBase ++ rest)

/-- `filepath.EvalSymlinks` on an absolute path. -/
def evalSymlinks (fs : FS) (abs : GoStr) : ResolveRes :=
  resolveSteps fs (abs.length + 300) (gs "/") (pathComps abs)

/-- Steps 1–2 of `sanitizePath`: trim, `Clean`, and make absolute by
joining a relative path to the workspace root. -/
def lexicalAbs (root path : GoStr) : GoStr :=
  let p := goClean (goTrimSpace path)
  if goIsAbs p then p else goJoinPath root p

/-- Steps 4–5 of `sanitizePath`, applied after symlink resolution: clean
again, require the path not to escape the root (`Rel` result not `..` and
not starting `../`), then require membership in the `AllowedPaths`
prefix whitelist when one is configured. -/
def sanitizeAfterResolve (root : GoStr) (allowedPaths : List GoStr)
    (absPath0 : GoStr) : Except WErr GoStr :=
  let absPath := goClean absPath0
  match goRel root absPath with
  | none => .error .relFailed
  | some rel =>
    if rel = gs ".." ∨ (gs "../").isPrefixOf rel then .error .pathEscape
    else if allowedPaths ≠ [] then
      if allowedPaths.any (fun ap =>
          let absAllowed := goClean (if goIsAbs ap then ap else goJoinPath root ap)
          absAllowed.isPrefixOf absPath) then
        .ok absPath
      else .error .notInAllowed
    else .ok absPath

/-- `(*OSWorkspace).sanitizePath`: trim and reject empty input, clean,
join to root, resolve symlinks — falling back to the unresolved lexical
path when resolution fails with not-exist — clean again, reject escapes
from the root, and apply the `AllowedPaths` prefix whitelist. -/
def sanitizePath (fs : FS) (root : GoStr) (allowedPaths : List GoStr)
    (path : GoStr) : Except WErr GoStr :=
  if goTrimSpace path = [] then .error .emptyPath
  else
    let abs0 := lexicalAbs root path
    match evalSymlinks fs abs0 with
    | .resolved q => sanitizeAfterResolve root allowedPaths q
    | .notExist => sanitizeAfterResolve root allowedPaths abs0
    | .errOther => .error .symlinkResolveFailed

/-! ### The command gate (`isAllowedCommand`, `Execute`, `SecureExec`) -/

/-- `(*OSWorkspace).isAllowedCommand`: trim the command; reject empty;
take its first whitespace-delimited field as the base command; accept
when some (trimmed, nonempty) whitelist entry equals the base command, or
is a prefix of the whole trimmed command followed by a space, a tab, or
the end of the string. -/
def isAllowedCommand (allowed : List GoStr) (cmd : GoStr) : Bool :=
  let c := goTrimSpace cmd
  if c = [] then false
  else
    match goFields c with
    | [] => false
    | baseCmd :: _ =>
      allowed.any (fun a0 =>
        let a := goTrimSpace a0
        a ≠ [] &&
          (a = baseCmd ||
            (a.isPrefixOf c &&
              (c.length = a.length || c.get? a.length = some 32 ||
                c.get? a.length = some 9))))

/-- The joined "command + arguments" string built by the unexported
`secureExec` in `shield.go`: `cmd` when there are no arguments, else
`cmd ++ " " ++ strings.Join(args, " ")`. -/
def joinFullCmd (cmd : GoStr) (args : List GoStr) : GoStr :=
  if args = [] then cmd else cmd ++ [32] ++ goJoinSep args [32]

/-- Whether `Execute` lets a command through its whitelist gate (its
only check, performed on the bare command string before spawning). -/
def executeAllowed (allowed : List GoStr) (cmd : GoStr) : Bool :=
  isAllowedCommand allowed cmd

/-- Whether the public `SecureExec` (OS workspace implementation) lets a
call through: it delegates directly to `Execute`, so only the bare
command string is checked and the arguments are not consulted. -/
def SecureExecAllowed (allowed : List GoStr) (cmd : GoStr)
    (args : List GoStr) : Bool :=
  executeAllowed allowed cmd

/-- Whether the unexported `secureExec` in `shield.go` lets a call
through: checks the bare command, then the joined command+arguments
string (its delegation to `Execute` re-checks the bare command, which
cannot change the outcome of the conjunction). -/
def shieldSecureExecAllowed (allowed : List GoStr) (cmd : GoStr)
    (args : List GoStr) : Bool :=
  isAllowedCommand allowed cmd && isAllowedCommand allowed (joinFullCmd cmd args)

/-- Modelled from the spec: a command string "matched against a whitelist
entry exactly or as a prefix followed by a word boundary (space, tab, or
end of string)".  Used only to compare the claim's description of the
matcher with the implemented one. -/
def specWordBoundaryMatch (entry s : GoStr) : Bool :=
  s = entry ||
    (entry.isPrefixOf s &&
      (s.length = entry.length || s.get? entry.length = some 32 ||
        s.get? entry.length = some 9))

/-- Modelled from the spec: the string matches some whitelist entry under
the word-boundary rule. -/
def specMatchAny (allowed : List GoStr) (s : GoStr) : Bool :=
  allowed.any (fun e => specWordBoundaryMatch e s)

/-- `NewOSWorkspace` step 2: copy the configured allowed commands, and
fall back to the built-in safe default list when the configuration is
empty. -/
def resolveAllowedCommands (cfgAllowed : List GoStr) : List GoStr :=
  if cfgAllowed.length = 0 then [gs "go", gs "go test", gs "go build", gs "go run"]
  else cfgAllowed

/-- How the spawned process ended, abstracting the OS: it failed to
start, the deadline fired, or it ran to completion with an exit code. -/
inductive RunOutcome where
  | startFailed
  | timedOut
  | exited (code : Int)
  deriving DecidableEq, Repr

/-- What `Execute` returns. -/
structure ExecResult where
  stdout : GoStr
  stderr : GoStr
  exitCode : Int
  err : Option WErr
  deriving DecidableEq, Repr

/-- `(*OSWorkspace).Execute` after the process ran, as a pure function of
the run outcome and the captured output: whitelist rejection happens
first (empty output, exit code −1); a deadline hit maps to exit code −1
and a timeout error; a non-zero exit keeps the captured output and exit
code but wraps the code in an error; start failure maps to exit code −1
and an execution error; exit 0 is the success path with a nil error. -/
def executeResult (allowed : List GoStr) (cmd : GoStr) (outcome : RunOutcome)
    (outBytes errBytes : GoStr) : ExecResult :=
  if ¬ isAllowedCommand allowed cmd then
    { stdout := [], stderr := [], exitCode := -1, err := some .commandNotAllowed }
  else
    match outcome with
    | .timedOut =>
      { stdout := outBytes, stderr := errBytes, exitCode := -1, err := some .timeout }
    | .exited c =>
      if c ≠ 0 then
        { stdout := outBytes, stderr := errBytes, exitCode := c,
          err := some (.exitNonZero c) }
      else
        { stdout := outBytes, stderr := errBytes, exitCode := 0, err := none }
    | .startFailed =>
      { stdout := outBytes, stderr := errBytes, exitCode := -1,
        err := some .executionFailed }

/-! ### The output truncator (`shield.go`) -/

/-- The fixed truncation marker of `TruncateOutputString`. -/
def truncMarker : GoStr := gs "\n... [TRUNCATED] ...\n"

/-- `strings.TrimRightFunc(s, r > unicode.MaxASCII)`: on the byte level a
non-ASCII rune always decodes from (and consumes) trailing bytes
`≥ 0x80`, so this drops the trailing bytes `> 127`. -/
def trimRightNonASCII (s : GoStr) : GoStr :=
  (s.reverse.dropWhile (fun b => 127 < b)).reverse

/-- `strings.TrimLeftFunc(s, r > unicode.MaxASCII)` on the byte level:
drops the leading bytes `> 127`. -/
def trimLeftNonASCII (s : GoStr) : GoStr :=
  s.dropWhile (fun b => 127 < b)

/-- `TruncateOutputString(s, maxLen)`: return `s` when it fits (or the
bound is non-positive); return the truncated marker alone when the bound
cannot hold the marker; otherwise keep a head and tail of
`(maxLen − len(marker)) / 2` bytes each around the marker (the bound
exceeds the marker length in this branch, so Go's `int` halving equals
the `Nat` halving used here), trimming non-ASCII bytes at the cut
points, with a final re-truncation guard. -/
def TruncateOutputString (s : GoStr) (maxLen : Int) : GoStr :=
  if maxLen ≤ 0 ∨ (s.length : Int) ≤ maxLen then s
  else
    let markerLen : Int := truncMarker.length
    if maxLen ≤ markerLen then truncMarker.take maxLen.toNat
    else
      let half : Nat := (maxLen - markerLen).toNat / 2
      let head := trimRightNonASCII (s.take half)
      let tail := trimLeftNonASCII (s.drop (s.length - half))
      let result := head ++ truncMarker ++ tail
      if (result.length : Int) ≤ maxLen then result
      else
        let excess : Int := result.length - maxLen
        if excess < (tail.length : Int) then
          head ++ truncMarker ++ tail.take (tail.length - excess.toNat)
        else
          head.take (head.length - (excess - tail.length).toNat) ++ truncMarker ++ tail

/-- What `SecureExec` (OS workspace implementation) returns: the
`Execute` result with stdout and stderr truncated to 2000 bytes. -/
def secureExecResult (allowed : List GoStr) (cmd : GoStr) (outcome : RunOutcome)
    (outBytes errBytes : GoStr) : ExecResult :=
  let r := executeResult allowed cmd outcome outBytes errBytes
  { r with stdout := TruncateOutputString r.stdout 2000,
           stderr := TruncateOutputString r.stderr 2000 }

/-! ### The hands module: `SearchAndReplace` and the unified-diff engine -/

/-- What `SearchAndReplace` produces, with the file state passed
explicitly: the occurrence count, the error (if any), and the file
content after the call (identical to the input content unless the
replacement was committed). -/
structure SRResult where
  actual : Int
  err : Option WErr
  content : GoStr
  deriving DecidableEq, Repr

/-- `(*OSWorkspace).SearchAndReplace` with path checks and file I/O
abstracted into an explicit pre-read `content` (path sanitisation is
`sanitizePath`, modelled separately; the extension blacklist is
orthogonal to the replacement logic): reject an
empty search string and negative expectations; count occurrences; fail
with a mismatch — writing nothing — when a positive expectation
disagrees; treat expectation 0 as a dry run; otherwise replace all
occurrences and atomically write the result back. -/
def SearchAndReplace (content old new : GoStr) (expected : Int) : SRResult :=
  if old = [] then { actual := 0, err := some .emptySearch, content := content }
  else if expected < 0 then
    { actual := 0, err := some .negativeExpected, content := content }
  else
    let actual : Int := goCount content old
    if 0 < expected ∧ actual ≠ expected then
      { actual := actual, err := some (.occurrenceMismatch expected actual),
        content := content }
    else if expected = 0 then
      { actual := actual, err := none, content := content }
    else
      { actual := actual, err := none, content := goReplaceAll content old new }

/-- One body line of a hunk: `type` is the one-byte prefix (`"+"`, `"-"`
or `" "`), `text` the rest of the line. -/
structure DLine where
  type : GoStr
  text : GoStr
  deriving DecidableEq, Repr

/-- A diff hunk: `@@ -oldStart,oldCount +newStart,newCount @@` plus body
lines. -/
structure Hunk where
  oldStart : Int
  oldCount : Int
  newStart : Int
  newCount : Int
  lines : List DLine
  deriving DecidableEq, Repr

/-- A parsed per-file patch. -/
structure DiffPatch where
  filePath : GoStr
  isNewFile : Bool
  hunks : List Hunk
  deriving DecidableEq, Repr

/-- `fmt.Sscanf(s, "%d", &x)` as used by `parseHunkHeader`: skip leading
spaces, read an optional sign and digits; when no digits are present the
target keeps its zero value. -/
def scanIntOr0 (s : GoStr) : Int :=
  let t := s.dropWhile isSpaceByte
  let (neg, t) := match t with
    | 45 :: rest => (true, rest)
    | 43 :: rest => (false, rest)
    | _ => (false, t)
  let digits := t.takeWhile (fun b => 48 ≤ b && b ≤ 57)
  let n : Nat := digits.foldl (fun acc d => acc * 10 + (d - 48)) 0
  if neg then -(n : Int) else (n : Int)

/-- `parseHunkHeader`: strip two bytes from each end, trim, split on
`" +"` into the old and new parts, then parse `start[,count]` on each
side (count defaults to 1 when no comma is present; a comma split that
does not yield exactly two pieces leaves the zero values). -/
def parseHunkHeader (line : GoStr) : Except WErr Hunk :=
  let content := goTrimSpace ((line.drop 2).take (line.length - 4))
  match goSplit (gs " +") content with
  | [oldRaw, newRaw] =>
    let oldPart := goTrimLead oldRaw (gs "-")
    let (oldStart, oldCount) :=
      if goContains oldPart (gs ",") then
        match goSplit (gs ",") oldPart with
        | [a, b] => (scanIntOr0 a, scanIntOr0 b)
        | _ => (0, 0)
      else (scanIntOr0 oldPart, 1)
    let (newStart, newCount) :=
      if goContains newRaw (gs ",") then
        match goSplit (gs ",") newRaw with
        | [a, b] => (scanIntOr0 a, scanIntOr0 b)
        | _ => (0, 0)
      else (scanIntOr0 newRaw, 1)
    .ok { oldStart := oldStart, oldCount := oldCount, newStart := newStart,
          newCount := newCount, lines := [] }
  | _ => .error .diffParseFailed

/-- Insert a hunk into a list sorted by ascending `oldStart`. -/
def insertHunk (h : Hunk) : List Hunk → List Hunk
  | [] => [h]
  | x :: xs => if h.oldStart < x.oldStart then h :: x :: xs else x :: insertHunk h xs

/-- `normalizeHunks`: sort hunks by ascending `oldStart` (Go uses
`sort.Slice`; for the distinct starts arising here any comparison sort
yields the same list). -/
def normalizeHunks (hunks : List Hunk) : List Hunk :=
  hunks.foldl (fun acc h => insertHunk h acc) []

/-- `isNewFilePatch`: a patch none of whose hunks contains a delete line
is (heuristically) treated as creating a new file. -/
def isNewFilePatch (patch : DiffPatch) : Bool :=
  patch.hunks.all (fun h => h.lines.all (fun l => l.type ≠ gs "-"))

/-- Parser state while scanning diff lines: finished patches, the patch
and hunk under construction, and whether we are inside a hunk body. -/
structure PState where
  patches : List DiffPatch
  cur : Option DiffPatch
  curHunk : Option Hunk
  inHunk : Bool

/-- Close the current hunk into the current patch and the current patch
into the finished list (used on a new `--- ` header and at end of
input); mirrors the two identical finalisation sites in
`parseUnifiedDiff`. -/
def finishPatch (st : PState) : List DiffPatch :=
  match st.cur, st.curHunk with
  | some p, some h =>
    st.patches ++
      [{ filePath := p.filePath, isNewFile := p.isNewFile,
         hunks := normalizeHunks (p.hunks ++ [h]) }]
  | _, _ => st.patches

/-- Append a closed hunk to a patch under construction. -/
def patchAddHunk (h : Hunk) (p : DiffPatch) : DiffPatch :=
  { p with hunks := p.hunks ++ [h] }

/-- Overwrite a patch's target path (from a `+++ ` header). -/
def patchSetPath (newPath : GoStr) (p : DiffPatch) : DiffPatch :=
  { p with filePath := newPath }

/-- Append one body line to a hunk under construction. -/
def hunkAddLine (t : Nat) (content : GoStr) (h : Hunk) : Hunk :=
  { h with lines := h.lines ++ [{ type := [t], text := content }] }

/-- The line loop of `parseUnifiedDiff`. -/
def parseLines : List GoStr → PState → Except WErr PState
  | [], st => .ok st
  | line :: rest, st =>
    if (gs "--- ").isPrefixOf line ∧ ¬ (gs "--- /dev/null").isPrefixOf line then
      let patches := finishPatch st
      let origPath := goTrimLead (goTrimLead (line.drop 4) (gs "a/")) (gs "b/")
      parseLines rest
        { patches := patches,
          cur := some { filePath := origPath, isNewFile := false, hunks := [] },
          curHunk := none, inHunk := false }
    else if (gs "+++ ").isPrefixOf line ∧ st.cur.isSome then
      let newPath := goTrimLead (goTrimLead (line.drop 4) (gs "b/")) (gs "a/")
      let st :=
        if newPath ≠ gs "/dev/null" then
          { st with cur := st.cur.map (patchSetPath newPath) }
        else st
      parseLines rest st
    else if (gs "@@ ").isPrefixOf line ∧ st.cur.isSome then
      match parseHunkHeader line with
      | .error e => .error e
      | .ok hunk =>
        let st :=
          match st.curHunk with
          | some h => { st with cur := st.cur.map (patchAddHunk h) }
          | none => st
        parseLines rest { st with curHunk := some hunk, inHunk := true }
    else if st.inHunk ∧ st.curHunk.isSome ∧ line ≠ [] then
      match line with
      | t :: content =>
        if t = 43 ∨ t = 45 ∨ t = 32 then
          parseLines rest
            { st with curHunk := st.curHunk.map (hunkAddLine t content) }
        else parseLines rest st
      | [] => parseLines rest st
    else parseLines rest st

/-- `parseUnifiedDiff`: split the diff text into lines, run the line
loop, finalise the last patch and hunk, then classify each patch with
the new-file heuristic. -/
def parseUnifiedDiff (diffText : GoStr) : Except WErr (List DiffPatch) :=
  match parseLines (goSplit (gs "\n") diffText)
      { patches := [], cur := none, curHunk := none, inHunk := false } with
  | .error e => .error e
  | .ok st =>
    .ok ((finishPatch st).map (fun p => { p with isNewFile := isNewFilePatch p }))

/-- One pass of the pre-hunk copy loop, running a fixed number of
steps: each step appends the original line at the 1-indexed cursor when
it is in range (out-of-range cursors append nothing) and advances the
cursor. -/
def copySteps (lines : List GoStr) : Nat → Int → (List GoStr × Int)
  | 0, cur => ([], cur)
  | k + 1, cur =>
    let copied :=
      match lines.get? (cur - 1).toNat with
      | some l => if (cur - 1) < (lines.length : Int) ∧ 0 ≤ cur - 1 then [l] else []
      | none => []
    let (more, fin) := copySteps lines k (cur + 1)
    (copied ++ more, fin)

/-- The pre-hunk copy loop of `applyPatchToContent`: append original
lines until the cursor reaches `target` (`for oldLineNum < hunk.OldStart`),
expressed as exactly `target − cur` steps. -/
def copyUntil (lines : List GoStr) (target cur : Int) : (List GoStr × Int) :=
  copySteps lines (target - cur).toNat cur

/-- The body loop of one hunk: a delete line advances the cursor only
when the original line at the cursor (without its newline) equals the
delete text; an add line appends its text; a context line copies the
original line at the cursor when one exists, else synthesizes the hunk's
own text. -/
def applyHunkLines (lines : List GoStr) : List DLine → Int → (List GoStr × Int)
  | [], cur => ([], cur)
  | l :: ls, cur =>
    if l.type = gs "-" then
      let cur' :=
        match lines.get? (cur - 1).toNat with
        | some orig =>
          if 0 ≤ cur - 1 ∧ (cur - 1) < (lines.length : Int) ∧
              goTrimSuffix orig (gs "\n") = l.text then cur + 1
          else cur
        | none => cur
      applyHunkLines lines ls cur'
    else if l.type = gs "+" then
      let (rest, fin) := applyHunkLines lines ls cur
      ((l.text ++ [10]) :: rest, fin)
    else if l.type = gs " " then
      match lines.get? (cur - 1).toNat with
      | some orig =>
        if 0 ≤ cur - 1 ∧ (cur - 1) < (lines.length : Int) then
          let (rest, fin) := applyHunkLines lines ls (cur + 1)
          (orig :: rest, fin)
        else
          let (rest, fin) := applyHunkLines lines ls cur
          ((l.text ++ [10]) :: rest, fin)
      | none =>
        let (rest, fin) := applyHunkLines lines ls cur
        ((l.text ++ [10]) :: rest, fin)
    else applyHunkLines lines ls cur

/-- Apply the hunks in order, threading the output and the old-line
cursor. -/
def applyHunks (lines : List GoStr) : List Hunk → Int → (List GoStr × Int)
  | [], cur => ([], cur)
  | h :: hs, cur =>
    let (pre, cur1) := copyUntil lines h.oldStart cur
    let (body, cur2) := applyHunkLines lines h.lines cur1
    let (rest, fin) := applyHunks lines hs cur2
    (pre ++ body ++ rest, fin)

/-- `applyPatchToContent`: split the original on newlines, drop a final
empty chunk, re-attach a newline to every line; copy/patch through the
hunks; append the remaining original lines; join; and trim the final
newline when the original did not end with one. -/
def applyPatchToContent (original : GoStr) (patch : DiffPatch) : GoStr :=
  let lines0 := goSplit (gs "\n") original
  let lines0 :=
    if lines0 ≠ [] ∧ lines0.getLast? = some [] then lines0.dropLast else lines0
  let lines := lines0.map (· ++ [10])
  let (out, cur) := applyHunks lines patch.hunks 1
  let (tailLines, _) := copyUntil lines ((lines.length : Int) + 1) cur
  let final := (out ++ tailLines).flatten
  if original ≠ [] ∧ ¬ (gs "\n").isSuffixOf original then goTrimSuffix final (gs "\n")
  else final

/-! ### The eyes module: `InspectWorkspace` and `ReadCodeFragment` -/

mutual
/-- A directory-tree entry as seen by the walk (`fs.DirEntry` plus the
file size; modification times are an external clock and are not
modelled). -/
inductive FNode where
  | file (name : GoStr) (size : Nat)
  | dir (name : GoStr) (children : Forest)

/-- The ordered children of a directory (`filepath.WalkDir` visits
entries in lexical order; the example trees below list children in that
order). -/
inductive Forest where
  | fnil
  | fcons (n : FNode) (rest : Forest)
end

mutual
/-- Structural equality on tree entries. -/
def nodeEq : FNode → FNode → Bool
  | .file n1 s1, .file n2 s2 => n1 = n2 && s1 = s2
  | .dir n1 c1, .dir n2 c2 => n1 = n2 && forestEq c1 c2
  | _, _ => false

/-- Structural equality on forests. -/
def forestEq : Forest → Forest → Bool
  | .fnil, .fnil => true
  | .fcons n1 r1, .fcons n2 r2 => nodeEq n1 n2 && forestEq r1 r2
  | _, _ => false
end

/-- The name of a tree entry (`d.Name()`). -/
def nodeName : FNode → GoStr
  | .file n _ => n
  | .dir n _ => n

/-- One entry of the `InspectWorkspace` result (`TreeNode`): the
root-relative path, the directory flag and the size (0 for directories;
`ModTime` is not modelled). -/
structure TNode where
  path : GoStr
  isDir : Bool
  size : Nat
  deriving DecidableEq, Repr

/-- The built-in ignore set of `InspectWorkspace`. -/
def ignoreDirs : List GoStr :=
  [gs ".git", gs "node_modules", gs "dist", gs "build", gs ".next",
   gs "vendor", gs ".cache", gs ".venv", gs "__pycache__", gs ".idea",
   gs ".vscode", gs "coverage", gs ".nyc_output"]

/-- The hidden-name markers of `InspectWorkspace`. -/
def hiddenMarks : List GoStr := [gs ".", gs ".DS_Store"]

/-- The walk's depth of a root-relative path: 0 for `.` itself, else the
separator count plus one (lines computing `depth` in
`InspectWorkspace`). -/
def entryDepth (rel : GoStr) : Int :=
  if rel = gs "." then 0 else (countSep rel : Int) + 1

/-- The root-relative path of a child entry. -/
def childRel (rel name : GoStr) : GoStr :=
  if rel = gs "." then name else rel ++ [47] ++ name

/-- The per-entry skip decision of the `WalkDir` callback, in source
order: entries deeper than `maxDepth` are skipped (directories without
descending), then ignored directory names and dot-prefixed directories,
then names matching a hidden marker. -/
def skipEntry (maxDepth : Int) (rel name : GoStr) (isDir : Bool) : Bool :=
  if maxDepth < entryDepth rel then true
  else if isDir && (ignoreDirs.contains name || (gs ".").isPrefixOf name) then true
  else hiddenMarks.any (fun m => m.isPrefixOf name)

mutual
/-- The `WalkDir` traversal of `InspectWorkspace`, emitting `TNode`s:
an entry that is not skipped is emitted, and a directory's children are
then visited; a skipped entry contributes nothing (for directories this
is `filepath.SkipDir`). -/
def walkNode (maxDepth : Int) (rel : GoStr) (n : FNode) : List TNode :=
  match n with
  | .file name sz =>
    if skipEntry maxDepth rel name false then []
    else [{ path := rel, isDir := false, size := sz }]
  | .dir name ch =>
    if skipEntry maxDepth rel name true then []
    else { path := rel, isDir := true, size := 0 } :: walkForest maxDepth rel ch

/-- Visit each child of a directory whose root-relative path is `rel`. -/
def walkForest (maxDepth : Int) (rel : GoStr) : Forest → List TNode
  | .fnil => []
  | .fcons n rest =>
    walkNode maxDepth (childRel rel (nodeName n)) n ++ walkForest maxDepth rel rest
end

/-- The result comparison of `InspectWorkspace`'s final sort:
directories before files, then case-insensitive path order. -/
def nodeLess (a b : TNode) : Bool :=
  if a.isDir = b.isDir then strLt (goToLower a.path) (goToLower b.path)
  else a.isDir

/-- Insert into a list sorted by `nodeLess`. -/
def insertNode (x : TNode) : List TNode → List TNode
  | [] => [x]
  | y :: ys => if nodeLess x y then x :: y :: ys else y :: insertNode x ys

/-- Sort the walk output by `nodeLess` (Go uses `sort.Slice`; with the
walk's distinct paths any comparison sort yields the same list). -/
def sortNodes (l : List TNode) : List TNode :=
  l.foldl (fun acc x => insertNode x acc) []

/-- `(*OSWorkspace).InspectWorkspace` starting at the workspace root
(`relPath = "."`), over an abstract snapshot of the root directory's
name and children: non-positive depths fall back to the default 2; the
tree is walked and the result sorted.  (Path sanitisation of `relPath`
is `sanitizePath`, modelled separately.) -/
def InspectWorkspace (rootName : GoStr) (children : Forest) (maxDepth : Int) :
    List TNode :=
  let md := if maxDepth ≤ 0 then 2 else maxDepth
  sortNodes (walkNode md (gs ".") (.dir rootName children))

/-- The `bufio.Scanner` loop of `ReadCodeFragment`: `cur` is the
1-indexed number of the line at the list's head; lines within
`[startLine, endLine]` are collected; the loop stops after processing
line `endLine`.  Returns the collected lines and the final value of the
`currentLine` counter. -/
def scanLines (startLine endLine : Int) : Int → List GoStr → (List GoStr × Int)
  | cur, [] => ([], cur)
  | cur, l :: ls =>
    let acc := if startLine ≤ cur ∧ cur ≤ endLine then [l] else []
    if endLine ≤ cur then (acc, cur)
    else
      let (rest, fin) := scanLines startLine endLine (cur + 1) ls
      (acc ++ rest, fin)

/-- `(*OSWorkspace).ReadCodeFragment` over the file's lines and byte
size (path sanitisation and the extension blacklist are modelled
separately): validate `startLine ≥ 1` and `endLine ≥ startLine`; force
pagination when the file exceeds 20 KiB and more than 200 lines are
requested; then scan, with `truncated` set when the counter never
reached `endLine`. -/
def ReadCodeFragment (fileLines : List GoStr) (fileSize : Int)
    (startLine endLine : Int) : Except WErr (List GoStr × Bool) :=
  if startLine ≤ 0 ∨ endLine < startLine then
    .error (.invalidRange startLine endLine)
  else if 20 * 1024 < fileSize ∧ 200 < endLine - startLine + 1 then
    .error (.rangeTooLarge (endLine - startLine + 1))
  else
    let (lines, fin) := scanLines startLine endLine 1 fileLines
    .ok (lines, fin < endLine)

/-! ### Example data and spec-side comparison definitions -/

/-- Modelled from the spec: resolution of "the resolved target" of a
path — follow symlinks component-wise like `EvalSymlinks`, but keep
walking lexically through components that do not exist (a not-yet-created
suffix does not change where the path points).  Used only to state where
a path actually leads when comparing with `sanitizePath`. -/
def resolveLexSteps (fs : FS) : Nat → GoStr → List GoStr → GoStr
  | 0, cur, rest => rest.foldl joinComp cur
  | _ + 1, cur, [] => cur
  | fuel + 1, cur, c :: rest =>
    let cand := joinComp cur c
    match lookupFS fs cand with
    | some (.symlink t) =>
      let newBase := if goIsAbs t then goClean t else goJoinPath cur t
      resolveLexSteps fs fuel (gs "/") (pathComps newBase ++ rest)
    | _ => resolveLexSteps fs fuel cand rest

/-- Modelled from the spec: the resolved target of an absolute path
(symlinks followed, missing suffixes kept lexically). -/
def resolveTarget (fs : FS) (p : GoStr) : GoStr :=
  resolveLexSteps fs (p.length + 300) (gs "/") (pathComps p)

/-- Modelled from the spec: a path "lies outside the sandbox root" when
its path relative to the root is `..`, starts with `../`, or cannot be
formed. -/
def outsideRoot (root p : GoStr) : Bool :=
  match goRel root (goClean p) with
  | none => true
  | some rel => rel = gs ".." || (gs "../").isPrefixOf rel

/-- Modelled from the spec: a path is "inside" a directory when it is the
directory itself or sits below it (directory prefix at a separator
boundary). -/
def insideDir (d p : GoStr) : Bool :=
  p = d || (d ++ [47]).isPrefixOf p

/-- Example filesystem for the PathGuard claims: workspace root `/ws`
containing a symlink `link → /outside`; `/outside` and `/etc/passwd`
exist outside the root. -/
def fsLink : FS :=
  [(gs "/ws", .dir), (gs "/outside", .dir), (gs "/etc", .dir),
   (gs "/etc/passwd", .file), (gs "/ws/link", .symlink (gs "/outside"))]

/-- Example filesystem for the allow-list claim: root `/ws` with an
allowed directory `src` and a sibling `src2` that merely extends the
allowed entry's name. -/
def fsAllow : FS :=
  [(gs "/ws", .dir), (gs "/ws/src", .dir), (gs "/ws/src2", .dir),
   (gs "/ws/src2/main.go", .file)]

/-- Example tree for the tree-scanner claims: a root `ws` containing
`README.md`, `a/b.txt`, `a/c/d.txt` and an ignored `.git/objects`. -/
def exTree : Forest :=
  .fcons (.dir (gs ".git") (.fcons (.dir (gs "objects") .fnil) .fnil))
    (.fcons (.file (gs "README.md") 6)
      (.fcons (.dir (gs "a")
        (.fcons (.file (gs "b.txt") 2)
          (.fcons (.dir (gs "c") (.fcons (.file (gs "d.txt") 3) .fnil)) .fnil)))
        .fnil))

/-- The example diff of the DiffEngine claim (the repository's own test
diff): one hunk `@@ -1,3 +1,3 @@` replacing `line2` by `new line2`
between context lines `line1` and `line3`. -/
def exDiff : GoStr :=
  gs "--- a/test.txt\n+++ b/test.txt\n@@ -1,3 +1,3 @@\n line1\n-line2\n+new line2\n line3\n"

/-- The parsed form of `exDiff`. -/
def exPatch : DiffPatch :=
  { filePath := gs "test.txt", isNewFile := false,
    hunks := [{ oldStart := 1, oldCount := 3, newStart := 1, newCount := 3,
                lines := [{ type := gs " ", text := gs "line1" },
                          { type := gs "-", text := gs "line2" },
                          { type := gs "+", text := gs "new line2" },
                          { type := gs " ", text := gs "line3" }] }] }

/-! ### Helper lemmas -/

/-- Dropping a prefix by predicate never lengthens a list. -/
theorem length_dropWhile_le2 (p : Nat → Bool) (s : List Nat) :
    (s.dropWhile p).length ≤ s.length := by
  induction s with
  | nil => simp
  | cons a l ih =>
    rw [List.dropWhile_cons]
    split
    · exact Nat.le_succ_of_le ih
    · simp

/-- Trimming trailing non-ASCII bytes never lengthens a string. -/
theorem length_trimRight_le (s : GoStr) :
    (trimRightNonASCII s).length ≤ s.length := by
  unfold trimRightNonASCII
  calc ((s.reverse.dropWhile (fun b => 127 < b)).reverse).length
      = (s.reverse.dropWhile (fun b => 127 < b)).length := List.length_reverse _
    _ ≤ s.reverse.length := length_dropWhile_le2 _ _
    _ = s.length := List.length_reverse _

/-- Trimming leading non-ASCII bytes never lengthens a string. -/
theorem length_trimLeft_le (s : GoStr) :
    (trimLeftNonASCII s).length ≤ s.length := by
  exact length_dropWhile_le2 _ _

/-- While the cursor is below the requested start, the scanner collects
nothing and only advances the line counter. -/
theorem scan_skip (s e : Int) (ls : List GoStr) (pre : List GoStr) :
    ∀ cur : Int, cur + (pre.length : Int) ≤ s → s ≤ e →
      scanLines s e cur (pre ++ ls) = scanLines s e (cur + pre.length) ls := by
  induction pre with
  | nil => intro cur _ _; simp
  | cons p ps ih =>
    intro cur h1 h2
    have hps : cur + (1 + (ps.length : Int)) ≤ s := by
      simpa [add_comm, add_assoc] using h1
    have hlt : cur < s := by omega
    rw [List.cons_append]
    simp only [scanLines]
    rw [if_neg (show ¬ (e ≤ cur) by omega)]
    rw [if_neg (show ¬ (s ≤ cur ∧ cur ≤ e) by omega)]
    simp only [List.nil_append]
    have harg : cur + 1 + (ps.length : Int) = cur + ((p :: ps).length : Int) := by
      simp only [List.length_cons]
      push_cast
      ring
    rw [ih (cur + 1) (by omega) h2, harg]

/-- Once the cursor is in range and the remaining lines all fit before
the end line, the scanner collects everything and counts every line. -/
theorem scan_collect (s e : Int) (ls : List GoStr) :
    ∀ cur : Int, s ≤ cur → cur + (ls.length : Int) ≤ e →
      scanLines s e cur ls = (ls, cur + ls.length) := by
  induction ls with
  | nil => intro cur h1 h2; simp [scanLines]
  | cons l ls ih =>
    intro cur h1 h2
    have hl : cur + (1 + (ls.length : Int)) ≤ e := by
      simpa [add_comm, add_assoc] using h2
    have hcure : cur < e := by omega
    simp only [scanLines]
    rw [if_neg (show ¬ (e ≤ cur) by omega)]
    rw [if_pos (show s ≤ cur ∧ cur ≤ e from ⟨h1, by omega⟩)]
    rw [ih (cur + 1) (by omega) (by omega)]
    simp
    omega

/-- A successful `sanitizeAfterResolve` returns the cleaned path it
checked, and that path passed the root-escape check. -/
theorem sanitizeAfterResolve_ok (root : GoStr) (allowed : List GoStr) (x r : GoStr)
    (h : sanitizeAfterResolve root allowed x = .ok r) :
    ∃ rel, goRel root r = some rel ∧ rel ≠ gs ".." ∧
      (gs "../").isPrefixOf rel = false := by
  unfold sanitizeAfterResolve at h
  dsimp only at h
  cases hrel : goRel root (goClean x) with
  | none => rw [hrel] at h; cases h
  | some rel =>
    rw [hrel] at h
    dsimp only at h
    by_cases hesc : rel = gs ".." ∨ (gs "../").isPrefixOf rel = true
    · rw [if_pos hesc] at h; cases h
    · rw [if_neg hesc] at h
      push_neg at hesc
      have hr : r = goClean x := by
        by_cases hall : allowed ≠ []
        · rw [if_pos hall] at h
          split at h
          · cases h; rfl
          · cases h
        · rw [if_neg hall] at h; cases h; rfl
      subst hr
      refine ⟨rel, hrel, hesc.1, ?_⟩
      rw [Bool.eq_false_iff]
      exact fun hc => hesc.2 hc

/-- An entry that was not skipped has depth within the bound. -/
theorem skip_false_depth (md : Int) (rel name : GoStr) (d : Bool)
    (h : skipEntry md rel name d = false) : entryDepth rel ≤ md := by
  unfold skipEntry at h
  by_cases hd : md < entryDepth rel
  · rw [if_pos hd] at h; cases h
  · omega

mutual
/-- Every node the walk emits from an entry has depth at most the
bound. -/
theorem walkNode_depth (md : Int) (rel : GoStr) (n : FNode) :
    ∀ t ∈ walkNode md rel n, entryDepth t.path ≤ md := by
  cases n with
  | file name sz =>
    intro t ht
    unfold walkNode at ht
    by_cases hskip : skipEntry md rel name false = true
    · rw [if_pos hskip] at ht; cases ht
    · rw [if_neg hskip] at ht
      have := skip_false_depth md rel name false (by simpa using hskip)
      rcases List.mem_singleton.mp ht with rfl
      exact this
  | dir name ch =>
    intro t ht
    unfold walkNode at ht
    by_cases hskip : skipEntry md rel name true = true
    · rw [if_pos hskip] at ht; cases ht
    · rw [if_neg hskip] at ht
      rcases List.mem_cons.mp ht with rfl | hmem
      · exact skip_false_depth md rel name true (by simpa using hskip)
      · exact walkForest_depth md rel ch t hmem

/-- Every node the walk emits from a forest has depth at most the
bound. -/
theorem walkForest_depth (md : Int) (rel : GoStr) (f : Forest) :
    ∀ t ∈ walkForest md rel f, entryDepth t.path ≤ md := by
  cases f with
  | fnil => intro t ht; simp [walkForest] at ht
  | fcons n rest =>
    intro t ht
    unfold walkForest at ht
    rcases List.mem_append.mp ht with hmem | hmem
    · exact walkNode_depth md (childRel rel (nodeName n)) n t hmem
    · exact walkForest_depth md rel rest t hmem
end

/-- Membership is preserved by sorted insertion. -/
theorem mem_insertNode (x t : TNode) (l : List TNode) :
    t ∈ insertNode x l ↔ t = x ∨ t ∈ l := by
  induction l with
  | nil => simp [insertNode]
  | cons a as ih =>
    unfold insertNode
    by_cases h : nodeLess x a = true
    · rw [if_pos h]
      simp [or_assoc]
    · rw [if_neg h]
      simp [ih]
      tauto

/-- Membership through the insertion fold. -/
theorem mem_sortAux (l : List TNode) :
    ∀ acc t, t ∈ l.foldl (fun acc x => insertNode x acc) acc ↔ t ∈ acc ∨ t ∈ l := by
  induction l with
  | nil => simp
  | cons a as ih =>
    intro acc t
    rw [List.foldl_cons, ih, mem_insertNode]
    simp
    tauto

/-- Sorting the walk output neither adds nor removes entries. -/
theorem mem_sortNodes (l : List TNode) (t : TNode) :
    t ∈ sortNodes l ↔ t ∈ l := by
  unfold sortNodes
  rw [mem_sortAux]
  simp

/-! ### Claim theorems -/

/-- C1 (counterexample): the claim "sanitizePath returns an error for
every path whose resolved target lies outside the root, including a path
through an existing symlink pointing outside the root, regardless of
whether the target exists" is false: with root `/ws` and the existing
symlink `/ws/link → /outside`, the not-yet-existing path `link/newfile`
resolves to `/outside/newfile`, outside the root, yet `sanitizePath`
accepts it and returns the unresolved lexical path. -/
theorem sanitizePath_symlink_missing_counterexample :
    sanitizePath fsLink (gs "/ws") [] (gs "link/newfile") =
      .ok (gs "/ws/link/newfile") ∧
    lookupFS fsLink (gs "/ws/link") = some (.symlink (gs "/outside")) ∧
    lookupFS fsLink (gs "/outside/newfile") = none ∧
    resolveTarget fsLink (gs "/ws/link/newfile") = gs "/outside/newfile" ∧
    outsideRoot (gs "/ws") (gs "/outside/newfile") = true := by
  decide

/-- C1 (amended): sanitizePath rejects every path whose checked absolute
form escapes the root: an accepted path always passed the relative-path
check against the root, and whenever symlink resolution succeeds with a
target whose cleaned form escapes the root the call errors; in
particular the relative traversal `../../etc/passwd` and the absolute
path `/etc/passwd` are rejected.  However, when resolution fails with
not-exist the lexical path is checked instead (the symlink
counterexample above). -/
theorem sanitizePath_escape_amended :
    (∀ (fs : FS) (root : GoStr) (allowed : List GoStr) (path r : GoStr),
      sanitizePath fs root allowed path = .ok r →
      ∃ rel, goRel root r = some rel ∧ rel ≠ gs ".." ∧
        (gs "../").isPrefixOf rel = false) ∧
    (∀ (fs : FS) (root : GoStr) (allowed : List GoStr) (path q rel : GoStr),
      evalSymlinks fs (lexicalAbs root path) = .resolved q →
      goRel root (goClean q) = some rel →
      (rel = gs ".." ∨ (gs "../").isPrefixOf rel = true) →
      ∃ e, sanitizePath fs root allowed path = .error e) ∧
    sanitizePath fsLink (gs "/ws") [] (gs "../../etc/passwd") = .error .pathEscape ∧
    sanitizePath fsLink (gs "/ws") [] (gs "/etc/passwd") = .error .pathEscape := by
  refine ⟨?_, ?_, by decide, by decide⟩
  · intro fs root allowed path r h
    unfold sanitizePath at h
    by_cases h0 : goTrimSpace path = []
    · rw [if_pos h0] at h; cases h
    · rw [if_neg h0] at h
      dsimp only at h
      cases hres : evalSymlinks fs (lexicalAbs root path) with
      | resolved q => rw [hres] at h; exact sanitizeAfterResolve_ok _ _ _ _ h
      | notExist => rw [hres] at h; exact sanitizeAfterResolve_ok _ _ _ _ h
      | errOther => rw [hres] at h; cases h
  · intro fs root allowed path q rel hq hrel hesc
    unfold sanitizePath
    by_cases h0 : goTrimSpace path = []
    · exact ⟨.emptyPath, by rw [if_pos h0]⟩
    · refine ⟨.pathEscape, ?_⟩
      rw [if_neg h0]
      dsimp only
      rw [hq]
      unfold sanitizeAfterResolve
      dsimp only
      rw [hrel]
      dsimp only
      rw [if_pos hesc]

/-- C1 (witness): the amended theorem applied concretely — the accepted
path `/ws/link/newfile` passed the root-escape check. -/
theorem sanitizePath_escape_amended_witness :
    ∃ rel, goRel (gs "/ws") (gs "/ws/link/newfile") = some rel ∧
      rel ≠ gs ".." ∧ (gs "../").isPrefixOf rel = false :=
  sanitizePath_escape_amended.1 fsLink (gs "/ws") [] (gs "link/newfile")
    (gs "/ws/link/newfile") (by decide)

/-- C2 (counterexample): the claim "the whitelist check is performed
twice — once on the bare command name and once on the joined command +
arguments string, each matched exactly or as a prefix followed by a word
boundary — and a joined command string that matches no whitelist entry
is rejected even when the bare command name alone is whitelisted" is
false: with whitelist `["go build"]`, command `"go build\n"` and
arguments `["x"]`, the joined string `"go build\n x"` matches no
whitelist entry (neither under the implemented matcher nor under the
spec's word-boundary matcher), yet the public `SecureExec` accepts the
call, because only the bare command is ever checked. -/
theorem secureExec_joined_unchecked_counterexample :
    SecureExecAllowed [gs "go build"] (gs "go build\n") [gs "x"] = true ∧
    isAllowedCommand [gs "go build"] (gs "go build\n") = true ∧
    isAllowedCommand [gs "go build"] (joinFullCmd (gs "go build\n") [gs "x"]) = false ∧
    specMatchAny [gs "go build"] (joinFullCmd (gs "go build\n") [gs "x"]) = false := by
  decide

/-- C2 (amended): the public `SecureExec` performs the whitelist check
once, on the bare command string only (it delegates to `Execute`, and
the arguments play no role); the double bare-plus-joined check exists
only in the unexported `secureExec` of `shield.go`, which can reject a
call the public `SecureExec` accepts. -/
theorem secureExec_whitelist_amended :
    (∀ (wl : List GoStr) (cmd : GoStr) (args : List GoStr),
      SecureExecAllowed wl cmd args = isAllowedCommand wl cmd) ∧
    (∀ (wl : List GoStr) (cmd : GoStr) (args : List GoStr),
      shieldSecureExecAllowed wl cmd args =
        (isAllowedCommand wl cmd && isAllowedCommand wl (joinFullCmd cmd args))) ∧
    shieldSecureExecAllowed [gs "go test"] (gs "go test\n") [gs "y"] = false ∧
    SecureExecAllowed [gs "go test"] (gs "go test\n") [gs "y"] = true :=
  ⟨fun _ _ _ => rfl, fun _ _ _ => rfl, by decide, by decide⟩

/-- C3 (counterexample): the claim "a whitelisted command that exits
non-zero yields the exit code, the captured output and a nil error" is
false: exit code 1 under the default-style whitelist gives a non-nil
error (wrapping the exit code) alongside the exit code and the captured
output. -/
theorem execute_nonzero_exit_counterexample :
    (secureExecResult [gs "go"] (gs "go") (.exited 1) (gs "out") (gs "errtext")).err =
      some (.exitNonZero 1) ∧
    (secureExecResult [gs "go"] (gs "go") (.exited 1) (gs "out") (gs "errtext")).exitCode = 1 ∧
    (secureExecResult [gs "go"] (gs "go") (.exited 1) (gs "out") (gs "errtext")).stdout =
      gs "out" ∧
    (secureExecResult [gs "go"] (gs "go") (.exited 1) (gs "out") (gs "errtext")).stderr =
      gs "errtext" := by
  decide

/-- C3 (amended): when a whitelisted command runs to completion with a
non-zero exit code, `Execute`/`SecureExec` return the exit code together
with the captured (truncated) stdout and stderr, but with a non-nil
error wrapping the exit code — not a nil error; it is the MCP tool layer
that renders this as a normal response instead of an abort. -/
theorem execute_nonzero_exit_amended (allowed : List GoStr) (cmd : GoStr)
    (h : isAllowedCommand allowed cmd = true) (c : Int) (hc : c ≠ 0)
    (so se : GoStr) :
    secureExecResult allowed cmd (.exited c) so se =
      { stdout := TruncateOutputString so 2000,
        stderr := TruncateOutputString se 2000,
        exitCode := c, err := some (.exitNonZero c) } := by
  unfold secureExecResult executeResult
  rw [if_neg (by simp [h])]
  dsimp only
  rw [if_pos hc]

/-- C3 (witness): the amended theorem applied at exit code 2. -/
theorem execute_nonzero_exit_amended_witness :
    secureExecResult [gs "go"] (gs "go") (.exited 2) (gs "o") (gs "e") =
      { stdout := TruncateOutputString (gs "o") 2000,
        stderr := TruncateOutputString (gs "e") 2000,
        exitCode := 2, err := some (.exitNonZero 2) } :=
  execute_nonzero_exit_amended [gs "go"] (gs "go") (by decide) 2 (by decide)
    (gs "o") (gs "e")

/-- C4: on content "foo bar foo baz foo", replacing "foo" by "qux" with
expected occurrences 3 reports 3 occurrences, no error, and the content
becomes "qux bar qux baz qux"; the same call with expected occurrences 2
fails with an occurrence mismatch and leaves the content byte-identical. -/
theorem searchAndReplace_occurrences :
    SearchAndReplace (gs "foo bar foo baz foo") (gs "foo") (gs "qux") 3 =
      { actual := 3, err := none, content := gs "qux bar qux baz qux" } ∧
    SearchAndReplace (gs "foo bar foo baz foo") (gs "foo") (gs "qux") 2 =
      { actual := 3, err := some (.occurrenceMismatch 2 3),
        content := gs "foo bar foo baz foo" } := by
  decide

/-- C5: parsing the unified diff with hunk header `@@ -1,3 +1,3 @@`,
context lines `line1`/`line3`, delete line `line2` and add line
`new line2` yields exactly one patch with that hunk, and applying it to
"line1\nline2\nline3\n" yields "line1\nnew line2\nline3\n", whose
trailing-newline presence matches the original's. -/
theorem unifiedDiff_parse_apply :
    parseUnifiedDiff exDiff = .ok [exPatch] ∧
    applyPatchToContent (gs "line1\nline2\nline3\n") exPatch =
      gs "line1\nnew line2\nline3\n" ∧
    (gs "\n").isSuffixOf (applyPatchToContent (gs "line1\nline2\nline3\n") exPatch) =
      (gs "\n").isSuffixOf (gs "line1\nline2\nline3\n") := by
  decide

/-- C6 (counterexample): the claim "the depth of an entry equals the
count of path separators in its root-relative path, and an entry with
exactly maxDepth separators is included unless ignored" is false: in the
example tree, `a/b.txt` has exactly 1 separator and is excluded by no
ignore rule, yet `InspectWorkspace` with maxDepth 1 omits it (the code
computes depth = separators + 1); with maxDepth 2 the same entry is
included. -/
theorem inspect_depth_counterexample :
    ((InspectWorkspace (gs "ws") exTree 1).map TNode.path).contains (gs "a/b.txt") =
      false ∧
    countSep (gs "a/b.txt") = 1 ∧
    ((InspectWorkspace (gs "ws") exTree 2).map TNode.path).contains (gs "a/b.txt") =
      true ∧
    ignoreDirs.contains (gs "a") = false ∧
    hiddenMarks.any (fun m => m.isPrefixOf (gs "a")) = false ∧
    hiddenMarks.any (fun m => m.isPrefixOf (gs "b.txt")) = false := by
  decide

/-- C6 (amended): the walk's depth of an entry is the separator count of
its root-relative path plus one (the walk root `.` has depth 0), and
every entry in the result respects the effective bound (the default 2
for non-positive requests): its depth is at most maxDepth, so an entry
with maxDepth separators is never included, while an entry with
maxDepth − 1 separators is included when no ignore rule applies —
witnessed by `a/b.txt` (1 separator) at maxDepth 2. -/
theorem inspect_depth_amended :
    (∀ (rootName : GoStr) (children : Forest) (d : Int) (t : TNode),
      t ∈ InspectWorkspace rootName children d →
      entryDepth t.path ≤ (if d ≤ 0 then 2 else d)) ∧
    ((InspectWorkspace (gs "ws") exTree 2).map TNode.path).contains (gs "a/b.txt") =
      true ∧
    countSep (gs "a/b.txt") = 1 := by
  refine ⟨?_, by decide, by decide⟩
  intro rootName children d t ht
  unfold InspectWorkspace at ht
  rw [mem_sortNodes] at ht
  exact walkNode_depth _ _ _ t ht

/-- C6 (witness): the amended theorem applied at the example tree — the
node `a/b.txt` of the maxDepth-2 result has depth at most 2. -/
theorem inspect_depth_amended_witness :
    entryDepth (TNode.mk (gs "a/b.txt") false 2).path ≤ (if (2 : Int) ≤ 0 then 2 else 2) :=
  inspect_depth_amended.1 (gs "ws") exTree 2 (TNode.mk (gs "a/b.txt") false 2)
    (by decide)

/-- C7: for every bound strictly greater than the marker's length the
truncated output has length at most the bound, and every string already
within the bound is returned unchanged. -/
theorem truncateOutput_bounds :
    (∀ (s : GoStr) (n : Int), (truncMarker.length : Int) < n →
      ((TruncateOutputString s n).length : Int) ≤ n) ∧
    (∀ (s : GoStr) (n : Int), (s.length : Int) ≤ n →
      TruncateOutputString s n = s) := by
  have hm : truncMarker.length = 21 := by decide
  constructor
  · intro s n h
    rw [hm] at h
    unfold TruncateOutputString
    dsimp only
    rw [hm]
    push_cast
    split
    · rename_i h0
      rcases h0 with h0 | h0 <;> omega
    · split
      · rename_i h1
        omega
      · rename_i h0 h1
        have hh : (trimRightNonASCII (s.take ((n - (21 : Int)).toNat / 2))).length
            ≤ (n - (21 : Int)).toNat / 2 := by
          calc (trimRightNonASCII (s.take ((n - (21 : Int)).toNat / 2))).length
              ≤ (s.take ((n - (21 : Int)).toNat / 2)).length := length_trimRight_le _
            _ ≤ (n - (21 : Int)).toNat / 2 := by simp [List.length_take]
        have ht : (trimLeftNonASCII (s.drop (s.length - (n - (21 : Int)).toNat / 2))).length
            ≤ (n - (21 : Int)).toNat / 2 := by
          calc (trimLeftNonASCII (s.drop (s.length - (n - (21 : Int)).toNat / 2))).length
              ≤ (s.drop (s.length - (n - (21 : Int)).toNat / 2)).length :=
                length_trimLeft_le _
            _ ≤ (n - (21 : Int)).toNat / 2 := by
                simp [List.length_drop]
                omega
        split
        · rename_i h2
          exact h2
        · rename_i h2
          exfalso
          simp only [List.length_append, hm] at h2
          push_cast at h2
          omega
  · intro s n h
    unfold TruncateOutputString
    rw [if_pos (Or.inr h)]

/-- C7 (witness): the bounds applied at a 30-byte string with bound 25,
and at a short string with the same bound. -/
theorem truncateOutput_bounds_witness :
    ((TruncateOutputString (gs "aaaaaaaaaaaaaaaaaaaaaaaaaaaaaa") 25).length : Int) ≤ 25 ∧
    TruncateOutputString (gs "abc") 25 = gs "abc" :=
  ⟨truncateOutput_bounds.1 (gs "aaaaaaaaaaaaaaaaaaaaaaaaaaaaaa") 25 (by decide),
   truncateOutput_bounds.2 (gs "abc") 25 (by decide)⟩

/-- C8: on a file with exactly 100 lines, requesting lines 90–200
returns exactly the 11 lines 90 through 100 with the truncated flag set,
for any file size; and requesting lines 0–5 fails with the
invalid-argument error. -/
theorem readCodeFragment_bounds (ls : List GoStr) (fileSize : Int)
    (h : ls.length = 100) :
    ReadCodeFragment ls fileSize 90 200 = .ok (ls.drop 89, true) ∧
    (ls.drop 89).length = 11 ∧
    ReadCodeFragment ls fileSize 0 5 = .error (.invalidRange 0 5) := by
  have hd : (ls.drop 89).length = 11 := by simp [h]
  refine ⟨?_, hd, ?_⟩
  · unfold ReadCodeFragment
    rw [if_neg (by omega), if_neg (by omega)]
    have key : scanLines 90 200 1 ls = (ls.drop 89, 101) := by
      conv_lhs => rw [← List.take_append_drop 89 ls]
      rw [scan_skip 90 200 (ls.drop 89) (ls.take 89) 1 (by simp [h]) (by norm_num)]
      have hlen : (ls.take 89).length = 89 := by simp [h]
      rw [hlen]
      norm_num
      rw [scan_collect 90 200 (ls.drop 89) 90 (by norm_num) (by rw [hd]; norm_num)]
      rw [hd]
      norm_num
    rw [key]
    simp
  · unfold ReadCodeFragment
    rw [if_pos (by omega)]

/-- C8 (witness): the theorem applied at a concrete 100-line file. -/
theorem readCodeFragment_bounds_witness :
    ReadCodeFragment (List.replicate 100 (gs "x")) 500 90 200 =
      .ok ((List.replicate 100 (gs "x")).drop 89, true) :=
  (readCodeFragment_bounds (List.replicate 100 (gs "x")) 500 (by simp)).1

/-- C9: with an empty configured command list, `NewOSWorkspace` installs
the built-in default whitelist ["go", "go test", "go build", "go run"],
under which `Execute` and `SecureExec` accept commands named `go` (such
as `go build`) rather than rejecting every command. -/
theorem defaultWhitelist_go_allowed :
    resolveAllowedCommands [] =
      [gs "go", gs "go test", gs "go build", gs "go run"] ∧
    executeAllowed (resolveAllowedCommands []) (gs "go") = true ∧
    SecureExecAllowed (resolveAllowedCommands []) (gs "go") [gs "build"] = true ∧
    executeAllowed (resolveAllowedCommands []) (gs "go build") = true := by
  decide

/-- C10: the `AllowedPaths` membership check uses plain string-prefix
matching with no separator boundary: with root `/ws` and allowed entry
`src` (absolute form `/ws/src`), the path `src2/main.go` is accepted by
`sanitizePath` although `/ws/src2/main.go` is not inside the directory
`/ws/src` — its absolute string merely extends the allowed entry's
string. -/
theorem allowedPaths_prefix_no_boundary :
    sanitizePath fsAllow (gs "/ws") [gs "src"] (gs "src2/main.go") =
      .ok (gs "/ws/src2/main.go") ∧
    goJoinPath (gs "/ws") (gs "src") = gs "/ws/src" ∧
    insideDir (gs "/ws/src") (gs "/ws/src2/main.go") = false ∧
    (gs "/ws/src").isPrefixOf (gs "/ws/src2/main.go") = true := by
  decide
